import Mathlib

/-!
Verification development for the qiskit-nature molecular-problem core.

This file embeds, as Lean definitions, the parts of the repository that the
verified properties talk about:

* the test helpers of test/components/variational_forms/test_uccsd_advanced.py
  (pop_el_when_matched, excitation_lists_comparator) together with the
  reference excitation data recorded in that test's setUp;
* the singlet excitation enumeration (succ / succ_full) and the ansatz
  parameter-grouping, modelled from the specification since their source is
  not part of the repository snapshot;
* MolecularProblem.second_q_ops of
  qiskit_nature/problems/second_quantization/molecular/molecular_problem.py,
  with the driver, transformers and integral calculators it depends on.

Integer indices are Nat, integral coefficients are Rat; Python lists are
Lean lists; in-place mutation of Python lists is modelled by threading the
list state explicitly.
-/

namespace QiskitNature

/-! ### Test helpers from test_uccsd_advanced.py -/

/-- Number of index pairs (ind1, ind2) with ind1 from exc1, ind2 from exc2 and
ind1 = ind2, exactly as counted by the nested for-loops of
pop_el_when_matched (counter increments). -/
def countMatches (exc1 exc2 : List Nat) : Nat :=
  (exc1.map (fun ind1 => exc2.countP (fun ind2 => decide (ind2 = ind1)))).sum

/-- Walk of the inner j-loop of pop_el_when_matched over list2: the counter
accumulates countMatches across successive exc2 candidates without being
reset; the position j of the first candidate at which the accumulated counter
equals both len(exc1) and len(exc2) is returned, none when no such position
exists. -/
def findPopIndex (exc1 : List Nat) : List (List Nat) → Nat → Option Nat
  | [], _ => none
  | exc2 :: rest, counter =>
    if counter + countMatches exc1 exc2 = exc1.length ∧
        counter + countMatches exc1 exc2 = exc2.length then some 0
    else (findPopIndex exc1 rest (counter + countMatches exc1 exc2)).map (· + 1)

/-- Embedding of TestUCCSDHartreeFock.pop_el_when_matched.  The outer i-loop
body runs at most once (unconditional break), so only the head of list1 is
ever examined; on a hit at inner position j, list1.pop(0) and list2.pop(j)
are performed.  Python's in-place pops are modelled by returning the two
resulting lists. -/
def pop_el_when_matched (list1 list2 : List (List Nat)) :
    List (List Nat) × List (List Nat) :=
  match list1 with
  | [] => (list1, list2)
  | exc1 :: _ =>
    match findPopIndex exc1 list2 0 with
    | none => (list1, list2)
    | some j => (list1.tail, list2.eraseIdx j)

/-- The for-loop of excitation_lists_comparator: number_el iterations of
pop_el_when_matched threading the (list1, list2) state. -/
def comparatorLoop : Nat → List (List Nat) × List (List Nat) →
    List (List Nat) × List (List Nat)
  | 0, s => s
  | n + 1, s => comparatorLoop n (pop_el_when_matched s.1 s.2)

/-- The final expression of excitation_lists_comparator,
bool(len(list1) or len(list2) in [0]): Python's or returns len(list1) when it
is nonzero, else the truth value of len(list2) == 0. -/
def comparatorFinalExpr (list1 list2 : List (List Nat)) : Bool :=
  decide (list1.length ≠ 0) || decide (list2.length = 0)

/-- The state of the two (Python-aliased, mutated in place) argument lists
after excitation_lists_comparator returns: unchanged when the length guard
fails, else the result of len(list1) rounds of pop_el_when_matched. -/
def excitation_lists_comparator_final (list1 list2 : List (List Nat)) :
    List (List Nat) × List (List Nat) :=
  if list1.length ≠ list2.length then (list1, list2)
  else comparatorLoop list1.length (list1, list2)

/-- Embedding of TestUCCSDHartreeFock.excitation_lists_comparator. -/
def excitation_lists_comparator (list1 list2 : List (List Nat)) : Bool :=
  if list1.length ≠ list2.length then false
  else
    let s := comparatorLoop list1.length (list1, list2)
    comparatorFinalExpr s.1 s.2

/-- reference_singlet_double_excitations from
TestUCCSDHartreeFock.setUp (excitations for succ). -/
def reference_singlet_double_excitations : List (List Nat) :=
  [[0, 1, 4, 5], [0, 1, 4, 6], [0, 1, 4, 7],
   [0, 2, 4, 6], [0, 2, 4, 7], [0, 3, 4, 7]]

/-- reference_singlet_groups from TestUCCSDHartreeFock.setUp
(groups for succ_full). -/
def reference_singlet_groups : List (List (List Nat)) :=
  [[[0, 1, 4, 5]], [[0, 1, 4, 6], [0, 2, 4, 5]],
   [[0, 1, 4, 7], [0, 3, 4, 5]], [[0, 2, 4, 6]],
   [[0, 2, 4, 7], [0, 3, 4, 6]], [[0, 3, 4, 7]]]

/-! ### Excitation enumeration (modelled from the spec) -/

/-- Modelled from the spec: the UCC excitation enumerator source is not in the
repository snapshot.  Blocked spin ordering of the num_spin_orbitals
spin-orbital modes: alpha modes occupy indices 0 .. nso/2 - 1, beta modes
nso/2 .. nso - 1; the first numAlpha (numBeta) modes of each block are
occupied, the rest virtual. -/
def alphaOcc (numAlpha : Nat) : List Nat := List.range numAlpha

/-- Modelled from the spec: virtual alpha spin-orbital indices under blocked
ordering. -/
def alphaVirt (nso numAlpha : Nat) : List Nat :=
  List.range' numAlpha (nso / 2 - numAlpha)

/-- Modelled from the spec: occupied beta spin-orbital indices under blocked
ordering. -/
def betaOcc (nso numBeta : Nat) : List Nat := List.range' (nso / 2) numBeta

/-- Modelled from the spec: virtual beta spin-orbital indices under blocked
ordering. -/
def betaVirt (nso numBeta : Nat) : List Nat :=
  List.range' (nso / 2 + numBeta) (nso - (nso / 2 + numBeta))

/-- Strictly ordered pairs of elements of a list, in enumeration order. -/
def ordPairs : List Nat → List (Nat × Nat)
  | [] => []
  | x :: xs => (xs.map fun y => (x, y)) ++ ordPairs xs

/-- Modelled from the spec: same-spin double excitations [i, a, j, b]
(annihilate occupied i and j, create virtual a and b, all of one spin block),
every combination of two occupied and two virtual indices in canonical
i < j, a < b form. -/
def sameSpinDoubles (occ virt : List Nat) : List (List Nat) :=
  ((ordPairs occ).product (ordPairs virt)).map fun p =>
    [p.1.1, p.2.1, p.1.2, p.2.2]

/-- Modelled from the spec: mixed alpha-beta double excitations [i, a, j, b]
with i occupied alpha, a virtual alpha, j occupied beta, b virtual beta
(spin is conserved within each block). -/
def mixedDoubles (aO aV bO bV : List Nat) : List (List Nat) :=
  ((aO.product aV).product (bO.product bV)).map fun p =>
    [p.1.1, p.1.2, p.2.1, p.2.2]

/-- Modelled from the spec: the full spin-conserving double-excitation list
(method ucc) for num_spin_orbitals = nso and num_particles =
(numAlpha, numBeta) under blocked spin ordering. -/
def doubleExcitations (nso numAlpha numBeta : Nat) : List (List Nat) :=
  sameSpinDoubles (alphaOcc numAlpha) (alphaVirt nso numAlpha)
    ++ mixedDoubles (alphaOcc numAlpha) (alphaVirt nso numAlpha)
        (betaOcc nso numBeta) (betaVirt nso numBeta)
    ++ sameSpinDoubles (betaOcc nso numBeta) (betaVirt nso numBeta)

/-- Insertion of a value into a sorted list of naturals. -/
def insertSortedNat (x : Nat) : List Nat → List Nat
  | [] => [x]
  | y :: ys => if x ≤ y then x :: y :: ys else y :: insertSortedNat x ys

/-- Insertion sort on lists of naturals. -/
def sortNat (l : List Nat) : List Nat := l.foldr insertSortedNat []

/-- Modelled from the spec: the canonical symmetry key of an excitation — the
sorted multiset of its spatial-orbital indices (spin-orbital index modulo the
number of spatial orbitals nso/2, under blocked ordering).  Two excitations
are symmetry-equivalent exactly when their keys agree. -/
def spatialKey (nso : Nat) (e : List Nat) : List Nat :=
  sortNat (e.map fun x => x % (nso / 2))

/-- Modelled from the spec: succ_full singlet double-excitation grouping —
the spin-conserving doubles partitioned into groups of symmetry-equivalent
excitations (equal spatial keys), one group per distinct key; each group
shares one variational parameter.  The test suite compares groups
order-independently, so no particular group order is modelled. -/
def succFullGroups (nso numAlpha numBeta : Nat) : List (List (List Nat)) :=
  let L := doubleExcitations nso numAlpha numBeta
  ((L.map (spatialKey nso)).dedup).map fun k =>
    L.filter fun e => decide (spatialKey nso e = k)

/-- Modelled from the spec: succ singlet double excitations — one
representative per symmetry-equivalence class, the first excitation of its
class in canonical enumeration order. -/
def succExcitations (nso numAlpha numBeta : Nat) : List (List Nat) :=
  let L := doubleExcitations nso numAlpha numBeta
  L.filter fun e =>
    decide ((L.find? fun x => decide (spatialKey nso x = spatialKey nso e))
      = some e)

/-! ### Ansatz parameter grouping (modelled from the spec) -/

/-- Modelled from the spec: the UCC ansatz builder source is not in the
repository snapshot.  Each excitation group contributes one evolution term
with one free variational parameter shared across the group: group k is
bound to parameter index k. -/
def ansatzFromGroups (groups : List (List (List Nat))) :
    List (Nat × List (List Nat)) :=
  groups.enum

/-- Modelled from the spec: the number of distinct free variational
parameters of the ansatz built from the given excitation groups. -/
def ansatzParameterCount (groups : List (List (List Nat))) : Nat :=
  ((ansatzFromGroups groups).map Prod.fst).dedup.length

/-! ### Molecular problem (molecular_problem.py) -/

/-- One-body integral matrix: a list of rows of rational coefficients. -/
abbrev OneBodyInts := List (List ℚ)

/-- Two-body integral tensor: four nested index levels. -/
abbrev TwoBodyInts := List (List (List (List ℚ)))

/-- Modelled from the spec: the QMolecule integral snapshot produced by a
driver (the QMolecule class source is not in the repository snapshot) —
one- and two-body integral tensors plus optional x/y/z dipole integral
tensors. -/
structure QMolecule where
  one_body_integrals : OneBodyInts
  two_body_integrals : TwoBodyInts
  x_dipole_integrals : Option OneBodyInts
  y_dipole_integrals : Option OneBodyInts
  z_dipole_integrals : Option OneBodyInts
deriving DecidableEq

/-- Modelled from the spec: QMolecule.has_dipole_integrals — the transformed
snapshot carries dipole integrals exactly when all three dipole tensors are
present. -/
def QMolecule.has_dipole_integrals (q : QMolecule) : Bool :=
  q.x_dipole_integrals.isSome && q.y_dipole_integrals.isSome
    && q.z_dipole_integrals.isSome

/-- A second-quantized fermionic operator over register_length modes: a list
of terms, each a product of (creation?, mode) factors with a rational
coefficient. -/
structure FermionicOp where
  register_length : Nat
  terms : List (List (Bool × Nat) × ℚ)
deriving DecidableEq

/-- Entry (i, j) of a one-body tensor, 0 outside the stored rows. -/
def entry1 (m : OneBodyInts) (i j : Nat) : ℚ := (m.getD i []).getD j 0

/-- Entry (p, q, r, s) of a two-body tensor, 0 outside the stored entries. -/
def entry2 (t : TwoBodyInts) (p q r s : Nat) : ℚ :=
  (((t.getD p []).getD q []).getD r []).getD s 0

/-- Modelled from the spec: the numerical threshold below which integral
entries are skipped when building operators (1e-12 magnitude). -/
def intsThreshold : ℚ := 1 / 10 ^ 12

/-- Modelled from the spec: build_ferm_op_from_ints of fermionic_op_builder
(source not in the repository snapshot) — a term
coefficient * creation(p) * annihilation(q) for every one-body entry of
magnitude at least the threshold, plus a term
coefficient * creation(p) creation(q) annihilation(r) annihilation(s) for
every such two-body entry when a two-body tensor is supplied; the mode count
is the one-body row count. -/
def build_ferm_op_from_ints (one_body : OneBodyInts)
    (two_body : Option TwoBodyInts := none) : FermionicOp :=
  let n := one_body.length
  let oneTerms := (List.range n).flatMap fun p =>
    (List.range n).filterMap fun q =>
      let c := entry1 one_body p q
      if intsThreshold ≤ |c| then some ([(true, p), (false, q)], c) else none
  let twoTerms :=
    match two_body with
    | none => []
    | some t =>
      (List.range n).flatMap fun p => (List.range n).flatMap fun q =>
        (List.range n).flatMap fun r => (List.range n).filterMap fun s =>
          let c := entry2 t p q r s
          if intsThreshold ≤ |c| then
            some ([(true, p), (true, q), (false, r), (false, s)], c)
          else none
  ⟨n, oneTerms ++ twoTerms⟩

/-- Modelled from the spec: build_fermionic_op — the electronic Hamiltonian
operator built from the snapshot's one- and two-body integrals. -/
def build_fermionic_op (q : QMolecule) : FermionicOp :=
  build_ferm_op_from_ints q.one_body_integrals (some q.two_body_integrals)

/-- Modelled from the spec: calc_total_magnetization_ints — a diagonal
one-body tensor with +1/2 on alpha modes and -1/2 on beta modes under
blocked spin ordering, and no two-body part. -/
def calc_total_magnetization_ints (num_modes : Nat) :
    OneBodyInts × Option TwoBodyInts :=
  ((List.range num_modes).map fun i =>
    (List.range num_modes).map fun j =>
      if i = j then (if i < num_modes / 2 then (1 : ℚ) / 2 else -(1 / 2))
      else 0, none)

/-- Modelled from the spec: calc_total_particle_num_ints — the identity
one-body tensor of size num_modes (coefficient 1 on every diagonal mode),
and no two-body part. -/
def calc_total_particle_num_ints (num_modes : Nat) :
    OneBodyInts × Option TwoBodyInts :=
  ((List.range num_modes).map fun i =>
    (List.range num_modes).map fun j => if i = j then (1 : ℚ) else 0, none)

/-- MolecularProblem._create_total_magnetization_operator. -/
def create_total_magnetization_operator (num_modes : Nat) : FermionicOp :=
  build_ferm_op_from_ints (calc_total_magnetization_ints num_modes).1
    (calc_total_magnetization_ints num_modes).2

/-- MolecularProblem._create_total_angular_momentum_operator, parameterized
by the angular-momentum integral calculator: the spec describes
calc_total_ang_momentum_ints only as a pure function returning one- and
two-body tensors, so it is kept as an explicit function argument. -/
def create_total_angular_momentum_operator
    (angCalc : Nat → OneBodyInts × Option TwoBodyInts) (num_modes : Nat) :
    FermionicOp :=
  build_ferm_op_from_ints (angCalc num_modes).1 (angCalc num_modes).2

/-- MolecularProblem._create_total_particle_number_operator. -/
def create_total_particle_number_operator (num_modes : Nat) : FermionicOp :=
  build_ferm_op_from_ints (calc_total_particle_num_ints num_modes).1
    (calc_total_particle_num_ints num_modes).2

/-- MolecularProblem._create_dipole_operators: the x, y, z dipole operators
built from the snapshot's dipole integral tensors (present when
has_dipole_integrals holds). -/
def create_dipole_operators (q : QMolecule) :
    FermionicOp × FermionicOp × FermionicOp :=
  (build_ferm_op_from_ints (q.x_dipole_integrals.getD []),
   build_ferm_op_from_ints (q.y_dipole_integrals.getD []),
   build_ferm_op_from_ints (q.z_dipole_integrals.getD []))

/-- Modelled from the spec: BaseProblem._transform — the transformer chain
applied sequentially (left to right), each transformer a pure function from
snapshot to snapshot. -/
def applyTransformers (ts : List (QMolecule → QMolecule)) (q : QMolecule) :
    QMolecule :=
  ts.foldl (fun m t => t m) q

/-- Embedding of MolecularProblem.second_q_ops.  The driver's run() is
modelled as an Except value over an arbitrary error type (a raised driver
error is Except.error and is not caught anywhere in second_q_ops); the
operator list is [electronic, magnetization, angular momentum, particle
number] extended with [x, y, z dipole] exactly when the transformed
snapshot carries dipole integrals. -/
def second_q_ops {ε : Type}
    (angCalc : Nat → OneBodyInts × Option TwoBodyInts)
    (driver_run : Except ε QMolecule)
    (transformers : List (QMolecule → QMolecule)) :
    Except ε (List FermionicOp) :=
  match driver_run with
  | Except.error e => Except.error e
  | Except.ok q_molecule =>
    let q_molecule_transformed := applyTransformers transformers q_molecule
    let num_modes := q_molecule_transformed.one_body_integrals.length
    let ops := [build_fermionic_op q_molecule_transformed,
                create_total_magnetization_operator num_modes,
                create_total_angular_momentum_operator angCalc num_modes,
                create_total_particle_number_operator num_modes]
    if q_molecule_transformed.has_dipole_integrals then
      let d := create_dipole_operators q_molecule_transformed
      Except.ok (ops ++ [d.1, d.2.1, d.2.2])
    else
      Except.ok ops

/-! ### Theorems about the test comparator helpers -/

/-- A successful findPopIndex position is a valid index into list2. -/
lemma findPopIndex_lt (exc1 : List Nat) (l2 : List (List Nat)) :
    ∀ c j, findPopIndex exc1 l2 c = some j → j < l2.length := by
  induction l2 with
  | nil => intro c j h; simp [findPopIndex] at h
  | cons exc2 rest ih =>
    intro c j h
    rw [findPopIndex] at h
    split at h
    · simp only [Option.some.injEq] at h
      simp only [List.length_cons]
      omega
    · cases hr : findPopIndex exc1 rest (c + countMatches exc1 exc2) with
      | none => rw [hr] at h; simp at h
      | some j0 =>
        rw [hr] at h
        simp only [Option.map_some', Option.some.injEq] at h
        have hj0 := ih _ _ hr
        simp only [List.length_cons]
        omega

/-- C9: a single call to pop_el_when_matched removes at most one element from
each list — either both lists are returned unchanged, or list1 loses exactly
its first element (index 0, the only one the broken outer loop ever examines)
and list2 loses exactly one element at some valid position j.  The second
conjunct exhibits the accumulating match counter: on [[0, 1]] versus
[[0, 5], [1, 6]], partial matches accumulated across the two candidates
trigger a pop at position 1 even though [1, 6] alone does not match [0, 1]. -/
theorem pop_el_when_matched_pops_at_most_head :
    (∀ list1 list2 : List (List Nat),
      pop_el_when_matched list1 list2 = (list1, list2) ∨
      ∃ j, j < list2.length ∧
        pop_el_when_matched list1 list2 = (list1.tail, list2.eraseIdx j)) ∧
    pop_el_when_matched [[0, 1]] [[0, 5], [1, 6]] = ([], [[0, 5]]) := by
  constructor
  · intro l1 l2
    cases l1 with
    | nil => left; rfl
    | cons e t =>
      cases hf : findPopIndex e l2 0 with
      | none => left; simp [pop_el_when_matched, hf]
      | some j =>
        right
        exact ⟨j, findPopIndex_lt e l2 0 j hf,
          by simp [pop_el_when_matched, hf]⟩
  · decide

/-- C4: excitation_lists_comparator is not an equivalence test — on the
equal-length, nonempty, element-disjoint pair [[0,1,2,3]] and [[4,5,6,7]] it
returns true; and its final expression bool(len(list1) or len(list2) in [0])
evaluates true whenever the leftover list1 remainder is nonempty. -/
theorem excitation_lists_comparator_not_equivalence :
    (excitation_lists_comparator [[0, 1, 2, 3]] [[4, 5, 6, 7]] = true ∧
      ([[0, 1, 2, 3]] : List (List Nat)).length = [[4, 5, 6, 7]].length ∧
      ([[0, 1, 2, 3]] : List (List Nat)) ≠ [] ∧
      ([0, 1, 2, 3] : List Nat).toFinset ≠ ([4, 5, 6, 7] : List Nat).toFinset) ∧
    ∀ list1 list2 : List (List Nat), list1 ≠ [] →
      comparatorFinalExpr list1 list2 = true := by
  refine ⟨by decide, ?_⟩
  intro l1 l2 h
  have hlen : l1.length ≠ 0 := by
    simpa [List.length_eq_zero] using h
  simp [comparatorFinalExpr, hlen]

/-- Closed instance of the final-expression conjunct of C4's theorem. -/
theorem excitation_lists_comparator_not_equivalence_witness :
    ([[9]] : List (List Nat)) ≠ [] ∧ comparatorFinalExpr [[9]] [[3]] = true :=
  ⟨by decide,
    excitation_lists_comparator_not_equivalence.2 [[9]] [[3]] (by decide)⟩

/-- C10: excitation_lists_comparator removes elements from its two argument
lists during comparison (in Python the pops mutate the caller's lists in
place; the mutation is modelled here by the explicitly threaded final list
state): on the matching pair [[0,1,2,3]], [[0,1,2,3]] both lists end empty,
strictly shorter than before the call. -/
theorem excitation_lists_comparator_mutates :
    excitation_lists_comparator_final [[0, 1, 2, 3]] [[0, 1, 2, 3]]
        = ([], []) ∧
      ([] : List (List Nat)).length < [[0, 1, 2, 3]].length := by
  decide

/-! ### Theorems about the excitation enumeration -/

/-- Both components of an ordered pair come from the underlying list. -/
lemma mem_ordPairs {l : List Nat} {p : Nat × Nat} (h : p ∈ ordPairs l) :
    p.1 ∈ l ∧ p.2 ∈ l := by
  induction l with
  | nil => simp [ordPairs] at h
  | cons x xs ih =>
    rw [ordPairs] at h
    rcases List.mem_append.mp h with h1 | h2
    · rcases List.mem_map.mp h1 with ⟨y, hy, rfl⟩
      exact ⟨List.mem_cons_self x xs, List.mem_cons_of_mem x hy⟩
    · have hp := ih h2
      exact ⟨List.mem_cons_of_mem x hp.1, List.mem_cons_of_mem x hp.2⟩

/-- Ordered pairs of a duplicate-free list are duplicate-free. -/
lemma nodup_ordPairs {l : List Nat} (h : l.Nodup) : (ordPairs l).Nodup := by
  induction l with
  | nil => simp [ordPairs]
  | cons x xs ih =>
    rw [ordPairs, List.nodup_append]
    refine ⟨?_, ih (List.Nodup.of_cons h), ?_⟩
    · exact (List.Nodup.of_cons h).map fun y z hyz => by
        simpa using hyz
    · intro p hp1 hp2
      rcases List.mem_map.mp hp1 with ⟨y, _, rfl⟩
      exact (List.nodup_cons.mp h).1 (mem_ordPairs hp2).1

/-- The quadruple forming map of sameSpinDoubles is injective. -/
lemma sameSpinQuad_injective : Function.Injective
    (fun p : (Nat × Nat) × Nat × Nat => [p.1.1, p.2.1, p.1.2, p.2.2]) := by
  rintro ⟨⟨i, j⟩, a, b⟩ ⟨⟨i2, j2⟩, a2, b2⟩ h
  simp only [List.cons.injEq, and_true] at h
  obtain ⟨h1, h2, h3, h4⟩ := h
  subst h1; subst h2; subst h3; subst h4; rfl

/-- The quadruple forming map of mixedDoubles is injective. -/
lemma mixedQuad_injective : Function.Injective
    (fun p : (Nat × Nat) × Nat × Nat => [p.1.1, p.1.2, p.2.1, p.2.2]) := by
  rintro ⟨⟨i, a⟩, j, b⟩ ⟨⟨i2, a2⟩, j2, b2⟩ h
  simp only [List.cons.injEq, and_true] at h
  obtain ⟨h1, h2, h3, h4⟩ := h
  subst h1; subst h2; subst h3; subst h4; rfl

/-- Shape and provenance of a same-spin double excitation. -/
lemma mem_sameSpinDoubles {occ virt : List Nat} {e : List Nat}
    (h : e ∈ sameSpinDoubles occ virt) :
    ∃ i a j b, e = [i, a, j, b] ∧ i ∈ occ ∧ j ∈ occ ∧ a ∈ virt ∧ b ∈ virt := by
  rcases List.mem_map.mp h with ⟨p, hp, rfl⟩
  rcases p with ⟨⟨i, j⟩, a, b⟩
  rcases List.mem_product.mp hp with ⟨hocc, hvirt⟩
  have h1 := mem_ordPairs hocc
  have h2 := mem_ordPairs hvirt
  exact ⟨i, a, j, b, rfl, h1.1, h1.2, h2.1, h2.2⟩

/-- Shape and provenance of a mixed alpha-beta double excitation. -/
lemma mem_mixedDoubles {aO aV bO bV : List Nat} {e : List Nat}
    (h : e ∈ mixedDoubles aO aV bO bV) :
    ∃ i a j b, e = [i, a, j, b] ∧ i ∈ aO ∧ a ∈ aV ∧ j ∈ bO ∧ b ∈ bV := by
  rcases List.mem_map.mp h with ⟨p, hp, rfl⟩
  rcases p with ⟨⟨i, a⟩, j, b⟩
  rcases List.mem_product.mp hp with ⟨h1, h2⟩
  rcases List.mem_product.mp h1 with ⟨hi, ha⟩
  rcases List.mem_product.mp h2 with ⟨hj, hb⟩
  exact ⟨i, a, j, b, rfl, hi, ha, hj, hb⟩

/-- Membership in alphaVirt forces the alpha-block bounds. -/
lemma mem_alphaVirt {nso numAlpha a : Nat} (h : a ∈ alphaVirt nso numAlpha) :
    numAlpha ≤ a ∧ a < nso / 2 ∧ numAlpha < nso / 2 := by
  rw [alphaVirt, List.mem_range'_1] at h
  omega

/-- Membership in betaOcc forces the beta-block lower bound. -/
lemma mem_betaOcc {nso numBeta j : Nat} (h : j ∈ betaOcc nso numBeta) :
    nso / 2 ≤ j := by
  rw [betaOcc, List.mem_range'_1] at h
  omega

/-- The spin-conserving double-excitation list has no duplicates. -/
lemma nodup_doubleExcitations (nso numAlpha numBeta : Nat) :
    (doubleExcitations nso numAlpha numBeta).Nodup := by
  have hA : (sameSpinDoubles (alphaOcc numAlpha) (alphaVirt nso numAlpha)).Nodup := by
    exact ((nodup_ordPairs (List.nodup_range numAlpha)).product
      (nodup_ordPairs (List.nodup_range' _ _))).map sameSpinQuad_injective
  have hB : (mixedDoubles (alphaOcc numAlpha) (alphaVirt nso numAlpha)
      (betaOcc nso numBeta) (betaVirt nso numBeta)).Nodup := by
    exact (((List.nodup_range numAlpha).product (List.nodup_range' _ _)).product
      ((List.nodup_range' _ _).product (List.nodup_range' _ _))).map
      mixedQuad_injective
  have hC : (sameSpinDoubles (betaOcc nso numBeta) (betaVirt nso numBeta)).Nodup := by
    exact ((nodup_ordPairs (List.nodup_range' _ _)).product
      (nodup_ordPairs (List.nodup_range' _ _))).map sameSpinQuad_injective
  have hAB : (sameSpinDoubles (alphaOcc numAlpha) (alphaVirt nso numAlpha)).Disjoint
      (mixedDoubles (alphaOcc numAlpha) (alphaVirt nso numAlpha)
        (betaOcc nso numBeta) (betaVirt nso numBeta)) := by
    intro e he1 he2
    obtain ⟨i, a, j, b, rfl, hi, hj, ha, hb⟩ := mem_sameSpinDoubles he1
    obtain ⟨i2, a2, j2, b2, heq, hi2, ha2, hj2, hb2⟩ := mem_mixedDoubles he2
    simp only [List.cons.injEq, and_true] at heq
    obtain ⟨e1, e2, e3, e4⟩ := heq
    have hjlt : j < numAlpha := by
      rw [alphaOcc, List.mem_range] at hj; exact hj
    have hbd := mem_alphaVirt ha
    have hge := mem_betaOcc hj2
    omega
  have hAC : (sameSpinDoubles (alphaOcc numAlpha) (alphaVirt nso numAlpha)).Disjoint
      (sameSpinDoubles (betaOcc nso numBeta) (betaVirt nso numBeta)) := by
    intro e he1 he2
    obtain ⟨i, a, j, b, rfl, hi, hj, ha, hb⟩ := mem_sameSpinDoubles he1
    obtain ⟨i2, a2, j2, b2, heq, hi2, hj2, ha2, hb2⟩ := mem_sameSpinDoubles he2
    simp only [List.cons.injEq, and_true] at heq
    obtain ⟨e1, e2, e3, e4⟩ := heq
    have hilt : i < numAlpha := by
      rw [alphaOcc, List.mem_range] at hi; exact hi
    have hbd := mem_alphaVirt ha
    have hge := mem_betaOcc hi2
    omega
  have hBC : (mixedDoubles (alphaOcc numAlpha) (alphaVirt nso numAlpha)
      (betaOcc nso numBeta) (betaVirt nso numBeta)).Disjoint
      (sameSpinDoubles (betaOcc nso numBeta) (betaVirt nso numBeta)) := by
    intro e he1 he2
    obtain ⟨i, a, j, b, rfl, hi, ha, hj, hb⟩ := mem_mixedDoubles he1
    obtain ⟨i2, a2, j2, b2, heq, hi2, hj2, ha2, hb2⟩ := mem_sameSpinDoubles he2
    simp only [List.cons.injEq, and_true] at heq
    obtain ⟨e1, e2, e3, e4⟩ := heq
    have hilt : i < numAlpha := by
      rw [alphaOcc, List.mem_range] at hi; exact hi
    have hbd := mem_alphaVirt ha
    have hge := mem_betaOcc hi2
    omega
  rw [doubleExcitations, List.append_assoc, List.nodup_append]
  refine ⟨hA, ?_, ?_⟩
  · rw [List.nodup_append]
    exact ⟨hB, hC, hBC⟩
  · intro e he1 he2
    rcases List.mem_append.mp he2 with h2 | h2
    · exact hAB he1 h2
    · exact hAC he1 h2

/-- Flattening per-key filters of a duplicate-free list over duplicate-free
keys yields a duplicate-free list. -/
lemma nodup_flatten_keyFilter {α β : Type} [DecidableEq α] [DecidableEq β]
    (L : List α) (key : α → β) (hL : L.Nodup) :
    ∀ ks : List β, ks.Nodup →
      ((ks.map fun k => L.filter fun e => decide (key e = k)).flatten).Nodup := by
  intro ks
  induction ks with
  | nil => intro _; simp
  | cons k ks ih =>
    intro hks
    rw [List.map_cons, List.flatten_cons, List.nodup_append]
    refine ⟨hL.filter _, ih (List.Nodup.of_cons hks), ?_⟩
    intro e he1 he2
    have hk : key e = k := by
      have := (List.mem_filter.mp he1).2
      simpa using this
    rcases List.mem_flatten.mp he2 with ⟨g, hg, heg⟩
    rcases List.mem_map.mp hg with ⟨k2, hk2, rfl⟩
    have hk2e : key e = k2 := by
      have := (List.mem_filter.mp heg).2
      simpa using this
    exact (List.nodup_cons.mp hks).1 (hk ▸ hk2e ▸ hk2)

/-- C2 counterexample: flattening the succ_full groups does not reproduce the
succ excitation set.  At num_spin_orbitals = 8, num_particles = (1, 1) the
symmetry partner [0, 2, 4, 5] appears in the flattened groups but not among
the succ representatives; the repository's own reference data in
TestUCCSDHartreeFock.setUp shows the same: the flattened
reference_singlet_groups (9 excitations) strictly exceed
reference_singlet_double_excitations (6 excitations). -/
theorem succ_full_flatten_ne_succ :
    [0, 2, 4, 5] ∈ (succFullGroups 8 1 1).flatten ∧
    [0, 2, 4, 5] ∉ succExcitations 8 1 1 ∧
    [0, 2, 4, 5] ∈ reference_singlet_groups.flatten ∧
    [0, 2, 4, 5] ∉ reference_singlet_double_excitations ∧
    reference_singlet_groups.flatten.length = 9 ∧
    reference_singlet_double_excitations.length = 6 := by
  decide

/-- C2 amended: for every enumeration input, flattening the succ_full groups
yields a duplicate-free excitation list that contains every succ
representative (a superset of the succ set rather than exactly the succ
set). -/
theorem succ_full_flatten_superset (nso numAlpha numBeta : Nat) :
    ((succFullGroups nso numAlpha numBeta).flatten).Nodup ∧
    ∀ e ∈ succExcitations nso numAlpha numBeta,
      e ∈ (succFullGroups nso numAlpha numBeta).flatten := by
  constructor
  · exact nodup_flatten_keyFilter _ (spatialKey nso)
      (nodup_doubleExcitations nso numAlpha numBeta) _ (List.nodup_dedup _)
  · intro e he
    have heL : e ∈ doubleExcitations nso numAlpha numBeta :=
      (List.mem_filter.mp he).1
    rw [List.mem_flatten]
    refine ⟨(doubleExcitations nso numAlpha numBeta).filter
      fun x => decide (spatialKey nso x = spatialKey nso e), ?_, ?_⟩
    · exact List.mem_map_of_mem _ (List.mem_dedup.mpr
        (List.mem_map_of_mem (spatialKey nso) heL))
    · rw [List.mem_filter]
      exact ⟨heL, by simp⟩

/-- Closed instance of the superset conjunct of C2's amended theorem. -/
theorem succ_full_flatten_superset_witness :
    [0, 1, 4, 5] ∈ succExcitations 8 1 1 ∧
    [0, 1, 4, 5] ∈ (succFullGroups 8 1 1).flatten :=
  ⟨by decide, (succ_full_flatten_superset 8 1 1).2 [0, 1, 4, 5] (by decide)⟩

/-- C3: singlet succ double-excitation enumeration at num_spin_orbitals = 8,
num_particles = (1, 1), excitation_type d returns, as a set, exactly the six
reference excitations of TestUCCSDHartreeFock.setUp (here the model even
reproduces the reference list order for order). -/
theorem succ_singlet_doubles_concrete :
    (succExcitations 8 1 1).toFinset
        = reference_singlet_double_excitations.toFinset ∧
    succExcitations 8 1 1 = reference_singlet_double_excitations := by
  have h : succExcitations 8 1 1 = reference_singlet_double_excitations := by
    decide
  exact ⟨by rw [h], h⟩

/-- A list of nonempty lists is no longer than its flattening. -/
lemma length_le_flatten_length {α : Type} :
    ∀ l : List (List α), (∀ g ∈ l, g ≠ []) → l.length ≤ l.flatten.length := by
  intro l
  induction l with
  | nil => simp
  | cons g gs ih =>
    intro h
    rw [List.flatten_cons, List.length_append, List.length_cons]
    have h1 : 1 ≤ g.length := by
      have hg := h g (List.mem_cons_self g gs)
      cases g with
      | nil => simp at hg
      | cons _ _ => simp
    have h2 := ih fun x hx => h x (List.mem_cons_of_mem g hx)
    omega

/-- Every succ_full group is nonempty: its key is realized by at least one
excitation. -/
lemma succFullGroups_ne_nil (nso numAlpha numBeta : Nat) :
    ∀ g ∈ succFullGroups nso numAlpha numBeta, g ≠ [] := by
  intro g hg
  rcases List.mem_map.mp hg with ⟨k, hk, rfl⟩
  rcases List.mem_map.mp (List.mem_dedup.mp hk) with ⟨e, he, rfl⟩
  have : e ∈ (doubleExcitations nso numAlpha numBeta).filter
      fun x => decide (spatialKey nso x = spatialKey nso e) := by
    rw [List.mem_filter]
    exact ⟨he, by simp⟩
  exact List.ne_nil_of_mem this

/-- C6: the ansatz built from the succ_full groups has exactly one free
variational parameter per group — the parameter count equals the group
count, which never exceeds the number of raw (ungrouped) excitations, every
group being nonempty. -/
theorem ansatz_parameter_count (nso numAlpha numBeta : Nat) :
    ansatzParameterCount (succFullGroups nso numAlpha numBeta)
        = (succFullGroups nso numAlpha numBeta).length ∧
    (succFullGroups nso numAlpha numBeta).length
        ≤ ((succFullGroups nso numAlpha numBeta).flatten).length ∧
    ∀ g ∈ succFullGroups nso numAlpha numBeta, g ≠ [] := by
  refine ⟨?_, ?_, succFullGroups_ne_nil nso numAlpha numBeta⟩
  · rw [ansatzParameterCount, ansatzFromGroups, List.enum_map_fst,
      List.dedup_eq_self.mpr (List.nodup_range _), List.length_range]
  · exact length_le_flatten_length _ (succFullGroups_ne_nil nso numAlpha numBeta)

/-- Closed instance of C6's theorem at the reference enumeration input. -/
theorem ansatz_parameter_count_witness :
    ansatzParameterCount (succFullGroups 8 1 1)
        = (succFullGroups 8 1 1).length ∧
    [[0, 1, 4, 5]] ∈ succFullGroups 8 1 1 ∧
    ([[0, 1, 4, 5]] : List (List Nat)) ≠ [] :=
  ⟨(ansatz_parameter_count 8 1 1).1, by decide,
    (ansatz_parameter_count 8 1 1).2.2 [[0, 1, 4, 5]] (by decide)⟩

/-! ### Theorems about MolecularProblem.second_q_ops -/

/-- The operator list produced from a successfully driven and transformed
snapshot without dipole integrals. -/
lemma second_q_ops_ok_no_dipole {ε : Type}
    (angCalc : Nat → OneBodyInts × Option TwoBodyInts)
    (q : QMolecule) (ts : List (QMolecule → QMolecule))
    (h : (applyTransformers ts q).has_dipole_integrals = false) :
    second_q_ops (ε := ε) angCalc (Except.ok q) ts = Except.ok
      [build_fermionic_op (applyTransformers ts q),
       create_total_magnetization_operator
         (applyTransformers ts q).one_body_integrals.length,
       create_total_angular_momentum_operator angCalc
         (applyTransformers ts q).one_body_integrals.length,
       create_total_particle_number_operator
         (applyTransformers ts q).one_body_integrals.length] := by
  simp [second_q_ops, h]

/-- The operator list produced from a successfully driven and transformed
snapshot carrying dipole integrals. -/
lemma second_q_ops_ok_dipole {ε : Type}
    (angCalc : Nat → OneBodyInts × Option TwoBodyInts)
    (q : QMolecule) (ts : List (QMolecule → QMolecule))
    (h : (applyTransformers ts q).has_dipole_integrals = true) :
    second_q_ops (ε := ε) angCalc (Except.ok q) ts = Except.ok
      [build_fermionic_op (applyTransformers ts q),
       create_total_magnetization_operator
         (applyTransformers ts q).one_body_integrals.length,
       create_total_angular_momentum_operator angCalc
         (applyTransformers ts q).one_body_integrals.length,
       create_total_particle_number_operator
         (applyTransformers ts q).one_body_integrals.length,
       (create_dipole_operators (applyTransformers ts q)).1,
       (create_dipole_operators (applyTransformers ts q)).2.1,
       (create_dipole_operators (applyTransformers ts q)).2.2] := by
  simp [second_q_ops, h]

/-- C1: second_q_ops returns the operators in the fixed order [electronic,
magnetization, angular momentum, particle number, (x, y, z dipole)] —
exactly 4 operators when the transformed snapshot has no dipole integrals
and exactly 7 when it does, for every driver snapshot and transformer
chain. -/
theorem second_q_ops_fixed_order {ε : Type}
    (angCalc : Nat → OneBodyInts × Option TwoBodyInts)
    (q : QMolecule) (ts : List (QMolecule → QMolecule)) :
    ((applyTransformers ts q).has_dipole_integrals = false →
      second_q_ops (ε := ε) angCalc (Except.ok q) ts = Except.ok
        [build_fermionic_op (applyTransformers ts q),
         create_total_magnetization_operator
           (applyTransformers ts q).one_body_integrals.length,
         create_total_angular_momentum_operator angCalc
           (applyTransformers ts q).one_body_integrals.length,
         create_total_particle_number_operator
           (applyTransformers ts q).one_body_integrals.length] ∧
      ∀ l, second_q_ops (ε := ε) angCalc (Except.ok q) ts = Except.ok l →
        l.length = 4) ∧
    ((applyTransformers ts q).has_dipole_integrals = true →
      second_q_ops (ε := ε) angCalc (Except.ok q) ts = Except.ok
        [build_fermionic_op (applyTransformers ts q),
         create_total_magnetization_operator
           (applyTransformers ts q).one_body_integrals.length,
         create_total_angular_momentum_operator angCalc
           (applyTransformers ts q).one_body_integrals.length,
         create_total_particle_number_operator
           (applyTransformers ts q).one_body_integrals.length,
         (create_dipole_operators (applyTransformers ts q)).1,
         (create_dipole_operators (applyTransformers ts q)).2.1,
         (create_dipole_operators (applyTransformers ts q)).2.2] ∧
      ∀ l, second_q_ops (ε := ε) angCalc (Except.ok q) ts = Except.ok l →
        l.length = 7) := by
  constructor
  · intro h
    refine ⟨second_q_ops_ok_no_dipole angCalc q ts h, ?_⟩
    intro l hl
    rw [second_q_ops_ok_no_dipole angCalc q ts h] at hl
    cases hl
    rfl
  · intro h
    refine ⟨second_q_ops_ok_dipole angCalc q ts h, ?_⟩
    intro l hl
    rw [second_q_ops_ok_dipole angCalc q ts h] at hl
    cases hl
    rfl

/-- A concrete integral snapshot without dipole integrals (two modes,
identity one-body tensor, empty two-body tensor). -/
def qmoleculeNoDipole : QMolecule :=
  ⟨[[1, 0], [0, 1]], [], none, none, none⟩

/-- A concrete integral snapshot carrying x, y, z dipole integrals. -/
def qmoleculeWithDipole : QMolecule :=
  ⟨[[1, 0], [0, 1]], [], some [[1]], some [[1]], some [[1]]⟩

/-- A concrete angular-momentum integral calculator used to instantiate the
universally quantified calculator argument. -/
def trivialAngCalc : Nat → OneBodyInts × Option TwoBodyInts :=
  fun _ => ([], none)

/-- Closed instances of both branches of C1's theorem. -/
theorem second_q_ops_fixed_order_witness :
    ((applyTransformers [] qmoleculeNoDipole).has_dipole_integrals = false ∧
      ∀ l, second_q_ops (ε := Unit) trivialAngCalc
          (Except.ok qmoleculeNoDipole) [] = Except.ok l → l.length = 4) ∧
    ((applyTransformers [] qmoleculeWithDipole).has_dipole_integrals = true ∧
      ∀ l, second_q_ops (ε := Unit) trivialAngCalc
          (Except.ok qmoleculeWithDipole) [] = Except.ok l → l.length = 7) :=
  ⟨⟨rfl, ((second_q_ops_fixed_order trivialAngCalc
      qmoleculeNoDipole []).1 rfl).2⟩,
   ⟨rfl, ((second_q_ops_fixed_order trivialAngCalc
      qmoleculeWithDipole []).2 rfl).2⟩⟩

/-- C5: when the transformed snapshot carries no dipole integrals,
second_q_ops completes without any error and returns the operator list
without the three dipole operators (4 operators); absence of dipole data
alone never produces an error value — there is no MissingDipoleData path. -/
theorem second_q_ops_no_dipole_no_error {ε : Type}
    (angCalc : Nat → OneBodyInts × Option TwoBodyInts)
    (q : QMolecule) (ts : List (QMolecule → QMolecule))
    (h : (applyTransformers ts q).has_dipole_integrals = false) :
    ∃ l, second_q_ops (ε := ε) angCalc (Except.ok q) ts = Except.ok l ∧
      l.length = 4 := by
  exact ⟨_, second_q_ops_ok_no_dipole angCalc q ts h, rfl⟩

/-- Closed instance of C5's theorem. -/
theorem second_q_ops_no_dipole_no_error_witness :
    (applyTransformers [] qmoleculeNoDipole).has_dipole_integrals = false ∧
    ∃ l, second_q_ops (ε := Unit) trivialAngCalc
        (Except.ok qmoleculeNoDipole) [] = Except.ok l ∧ l.length = 4 :=
  ⟨rfl, second_q_ops_no_dipole_no_error trivialAngCalc qmoleculeNoDipole [] rfl⟩

/-- C8: a driver error is propagated by second_q_ops unchanged — for every
error value of every error type, the result is exactly that error and no
operator list is produced. -/
theorem second_q_ops_propagates_driver_error {ε : Type}
    (angCalc : Nat → OneBodyInts × Option TwoBodyInts) (e : ε)
    (ts : List (QMolecule → QMolecule)) :
    second_q_ops angCalc (Except.error e) ts = Except.error e := rfl

/-- C7: the particle-number integral calculator returns the identity
one-body tensor of size num_modes × num_modes — coefficient 1 on every
diagonal entry, 0 elsewhere — and no two-body part. -/
theorem calc_total_particle_num_ints_identity (num_modes i j : Nat)
    (hpos : 0 < num_modes) (heven : num_modes % 2 = 0)
    (hi : i < num_modes) (hj : j < num_modes) :
    (calc_total_particle_num_ints num_modes).1.length = num_modes ∧
    ((calc_total_particle_num_ints num_modes).1.getD i []).length = num_modes ∧
    entry1 (calc_total_particle_num_ints num_modes).1 i j
        = (if i = j then (1 : ℚ) else 0) ∧
    (calc_total_particle_num_ints num_modes).2 = none := by
  have hrow : (calc_total_particle_num_ints num_modes).1.getD i []
      = (List.range num_modes).map
          fun k => if i = k then (1 : ℚ) else 0 := by
    rw [calc_total_particle_num_ints]
    rw [List.getD_eq_getElem _ _ (by simpa using hi)]
    simp
  refine ⟨by simp [calc_total_particle_num_ints], ?_, ?_, rfl⟩
  · rw [hrow]; simp
  · rw [entry1, hrow]
    rw [List.getD_eq_getElem _ _ (by simpa using hj)]
    simp

/-- Closed instance of C7's theorem at num_modes = 2. -/
theorem calc_total_particle_num_ints_identity_witness :
    (0 < 2 ∧ 2 % 2 = 0 ∧ 0 < 2 ∧ 1 < 2) ∧
    ((calc_total_particle_num_ints 2).1.length = 2 ∧
      ((calc_total_particle_num_ints 2).1.getD 0 []).length = 2 ∧
      entry1 (calc_total_particle_num_ints 2).1 0 1
          = (if (0 : Nat) = 1 then (1 : ℚ) else 0) ∧
      (calc_total_particle_num_ints 2).2 = none) :=
  ⟨by decide,
    calc_total_particle_num_ints_identity 2 0 1 (by decide) (by decide)
      (by decide) (by decide)⟩

end QiskitNature
